import Mathlib

/-!
Shallow embedding of the pane-layout and editor-synchronization coordinator
(`src/renderer/components/editors.tsx`): the option synchronizer
(`toggleEditorOption`), the focused-command dispatcher (`executeCommand`),
the engine loader (`loadMonaco`), and the layout-persistence debouncer.

JavaScript objects are modelled explicitly with a heap of objects addressed
by numeric references, so that the shallow spread `{ ...monacoOptions }`
(which shares nested sub-objects between the copy and the original) is
embedded faithfully.
-/

namespace Fiddle

/-- A JavaScript value: boolean, string, number, reference to a heap
object, or `undefined`. -/
inductive JsVal where
  | vbool : Bool → JsVal
  | vstr : String → JsVal
  | vnum : Int → JsVal
  | vref : Nat → JsVal
  | vundef : JsVal
deriving DecidableEq

/-- A JavaScript object: an insertion-ordered association list of fields. -/
abbrev JsObj := List (String × JsVal)

/-- The object heap; a reference is an index into this list. -/
abbrev Heap := List JsObj

/-- Read a field of an object (`o[k]`); a missing field is `undefined`. -/
def objGet (o : JsObj) (k : String) : JsVal :=
  match o.find? (fun kv => kv.1 == k) with
  | some kv => kv.2
  | none => JsVal.vundef

/-- Write a field of an object (`o[k] = v`), keeping insertion order for an
existing key and appending a new key at the end, as JavaScript does. -/
def objSet : JsObj → String → JsVal → JsObj
  | [], k, v => [(k, v)]
  | (k1, v1) :: rest, k, v =>
      if k1 == k then (k, v) :: rest else (k1, v1) :: objSet rest k v

/-- Dereference a heap reference. -/
def heapGet (h : Heap) (r : Nat) : JsObj := h.getD r []

/-- Overwrite the object stored at a reference. -/
def heapSet (h : Heap) (r : Nat) (o : JsObj) : Heap := h.set r o

/-- Split a dotted path into segments at each `.` character. -/
def splitSegs : List Char → List Char → List String
  | [], acc => [String.mk acc.reverse]
  | c :: rest, acc =>
      if c = '.' then String.mk acc.reverse :: splitSegs rest []
      else splitSegs rest (c :: acc)

/-- Modelled from the spec: the dotted-path splitter used by the js-path
utility (`src/utils/js-path`, not part of the provided sources). -/
def splitPath (p : String) : List String := splitSegs p.toList []

/-- One step of dotted-path traversal (`o[seg]`): reading a property of
`undefined` throws, reading a property of another primitive yields
`undefined`, reading a field of an object looks it up. -/
def getStep (h : Heap) (v : JsVal) (seg : String) : Except String JsVal :=
  match v with
  | JsVal.vref r => Except.ok (objGet (heapGet h r) seg)
  | JsVal.vundef => Except.error "cannot read property of undefined"
  | _ => Except.ok JsVal.vundef

/-- Modelled from the spec: `getAtPath` of the js-path utility
(`src/utils/js-path`, not part of the provided sources) — resolve a dotted
configuration path by repeated property lookup from the root object. -/
def getAtPath (h : Heap) (p : String) (root : Nat) : Except String JsVal :=
  (splitPath p).foldlM (getStep h) (JsVal.vref root)

/-- Traverse all but the last segment, then assign the last field in place
on the parent object (helper for `setAtPath`). -/
def setSegs (h : Heap) (v : JsVal) : List String → JsVal → Except String Heap
  | [], _ => Except.error "empty path"
  | [last], cur =>
      match cur with
      | JsVal.vref r => Except.ok (heapSet h r (objSet (heapGet h r) last v))
      | _ => Except.error "cannot set property of a non-object"
  | seg :: s2 :: rest, cur =>
      match getStep h cur seg with
      | Except.error e => Except.error e
      | Except.ok next => setSegs h v (s2 :: rest) next

/-- Modelled from the spec: `setAtPath` of the js-path utility
(`src/utils/js-path`, not part of the provided sources) — navigate to the
parent of the last path segment and assign the field in place (mutating
the parent object on the heap). -/
def setAtPath (h : Heap) (p : String) (root : Nat) (v : JsVal) :
    Except String Heap :=
  setSegs h v (splitPath p) (JsVal.vref root)

/-- Modelled from the spec: the type-aware toggle rule of
`src/utils/toggle-monaco` (not part of the provided sources) — a boolean is
negated, the enum values "on"/"off" cycle to each other, and any other
value is not togglable and fails. -/
def toggleMonaco (v : JsVal) : Except String JsVal :=
  match v with
  | JsVal.vbool b => Except.ok (JsVal.vbool !b)
  | JsVal.vstr s =>
      if s == "on" then Except.ok (JsVal.vstr "off")
      else if s == "off" then Except.ok (JsVal.vstr "on")
      else Except.error "value is not togglable"
  | _ => Except.error "value is not togglable"

/-- A mounted editor instance as seen by the option synchronizer: the one
observable behaviour that matters is whether its `updateOptions` call
throws. -/
structure EditorInst where
  applyFails : Bool
deriving DecidableEq

/-- Observable events of one `toggleEditorOption` call. -/
inductive TEvent where
  | applyOptions : String → Nat → TEvent
  | publish : Nat → TEvent
  | warnLog : String → TEvent
deriving DecidableEq

/-- The state read and written by `toggleEditorOption`: the object heap,
the reference held in `this.state.monacoOptions` (the current published
snapshot), and `window.ElectronFiddle.editors` (the registry: `none` when
the editors collection itself is absent; an entry's `none` handle is a
pane key whose editor is not mounted). -/
structure ToggleState where
  heap : Heap
  currentRef : Nat
  editors : Option (List (String × Option EditorInst))
deriving DecidableEq

/-- The `Object.keys(...).forEach` loop of `toggleEditorOption`: null
handles are skipped; a live handle receives `updateOptions` (recorded as an
`applyOptions` event) and, if that call throws, the loop is aborted (a
throw inside a `forEach` callback propagates). Returns the events emitted
and whether the loop completed without throwing. -/
def applyAll : List (String × Option EditorInst) → Nat → List TEvent × Bool
  | [], _ => ([], true)
  | (_, none) :: rest, r => applyAll rest r
  | (k, some e) :: rest, r =>
      if e.applyFails then ([TEvent.applyOptions k r], false)
      else (TEvent.applyOptions k r :: (applyAll rest r).1, (applyAll rest r).2)

/-- `Editors.toggleEditorOption(path)` (editors.tsx lines 121–151). Returns
early with `false` when `window.ElectronFiddle.editors` is absent.
Otherwise, inside a try/catch: shallow-copies the current options object
(`{ ...monacoOptions }` — a fresh top-level object whose field values,
including references to nested sub-objects, are shared), resolves the
current value at `path`, computes the toggled value, assigns it in place
through the copy, pushes the copy to every mounted editor, publishes it via
`setState` and returns `true`; any throw is caught, logged as a warning,
and `false` is returned. -/
def toggleEditorOption (st : ToggleState) (path : String) :
    Bool × ToggleState × List TEvent :=
  match st.editors with
  | none => (false, st, [])
  | some eds =>
    match getAtPath (st.heap ++ [heapGet st.heap st.currentRef]) path
        st.heap.length with
    | Except.error _ =>
        (false, { st with heap := st.heap ++ [heapGet st.heap st.currentRef] },
          [TEvent.warnLog path])
    | Except.ok currentSetting =>
      match toggleMonaco currentSetting with
      | Except.error _ =>
          (false,
            { st with heap := st.heap ++ [heapGet st.heap st.currentRef] },
            [TEvent.warnLog path])
      | Except.ok nextVal =>
        match setAtPath (st.heap ++ [heapGet st.heap st.currentRef]) path
            st.heap.length nextVal with
        | Except.error _ =>
            (false,
              { st with heap := st.heap ++ [heapGet st.heap st.currentRef] },
              [TEvent.warnLog path])
        | Except.ok h2 =>
          if (applyAll eds st.heap.length).2 then
            (true, { st with heap := h2, currentRef := st.heap.length },
              (applyAll eds st.heap.length).1 ++ [TEvent.publish st.heap.length])
          else
            (false, { st with heap := h2 },
              (applyAll eds st.heap.length).1 ++ [TEvent.warnLog path])

/-- Whether `path` resolves to a togglable value in the current snapshot,
exactly as `toggleEditorOption` would resolve it (through the shallow
copy). -/
def pathResolves (st : ToggleState) (p : String) : Bool :=
  match getAtPath (st.heap ++ [heapGet st.heap st.currentRef]) p
      st.heap.length with
  | Except.error _ => false
  | Except.ok v =>
      match toggleMonaco v with
      | Except.error _ => false
      | Except.ok _ => true

/-- A pure (heap-free) JavaScript value, used to read back the structural
content of a snapshot. -/
inductive OptVal where
  | b : Bool → OptVal
  | s : String → OptVal
  | n : Int → OptVal
  | undef : OptVal
  | obj : List (String × OptVal) → OptVal

mutual

/-- Read the full structural value reachable from a JavaScript value,
consuming one unit of fuel per reference followed and per object field
traversed. -/
def readValue : Nat → Heap → JsVal → Option OptVal
  | _, _, JsVal.vbool b => some (OptVal.b b)
  | _, _, JsVal.vstr s => some (OptVal.s s)
  | _, _, JsVal.vnum n => some (OptVal.n n)
  | _, _, JsVal.vundef => some OptVal.undef
  | 0, _, JsVal.vref _ => none
  | fuel + 1, h, JsVal.vref r =>
      match readFields fuel h (heapGet h r) with
      | some fields => some (OptVal.obj fields)
      | none => none

/-- Read back every field of an object (helper for `readValue`). -/
def readFields : Nat → Heap → List (String × JsVal) →
    Option (List (String × OptVal))
  | _, _, [] => some []
  | 0, _, _ :: _ => none
  | fuel + 1, h, (k, v) :: rest =>
      match readValue fuel h v, readFields fuel h rest with
      | some w, some ws => some ((k, w) :: ws)
      | _, _ => none

end

/-- The heap holding `defaultMonacoOptions` (editors.tsx lines 21–26):
object 0 is the `minimap` sub-object `\x7b enabled: false \x7d`, object 1 is the
root options object. -/
def stdHeap : Heap :=
  [[("enabled", JsVal.vbool false)],
   [("minimap", JsVal.vref 0), ("wordWrap", JsVal.vstr "on")]]

/-- A `ToggleState` whose published snapshot is `defaultMonacoOptions`. -/
def mkStdState (eds : Option (List (String × Option EditorInst))) :
    ToggleState :=
  { heap := stdHeap, currentRef := 1, editors := eds }

/-- The heap after a successful `toggle("minimap.enabled")` from
`stdHeap`: the shallow copy is object 2, and the shared `minimap`
sub-object (object 0) has been mutated in place. -/
def stdHeapToggled : Heap :=
  [[("enabled", JsVal.vbool true)],
   [("minimap", JsVal.vref 0), ("wordWrap", JsVal.vstr "on")],
   [("minimap", JsVal.vref 0), ("wordWrap", JsVal.vstr "on")]]

/-- The apply-options events a registry produces when no handle throws:
one per mounted (non-null) handle, in registry order. -/
def applyEvents (eds : List (String × Option EditorInst)) (r : Nat) :
    List TEvent :=
  eds.filterMap (fun p => p.2.map (fun _ => TEvent.applyOptions p.1 r))

/-- Whether every mounted handle in the registry applies options without
throwing. -/
def edsAllHealthy (eds : List (String × Option EditorInst)) : Bool :=
  eds.all (fun p =>
    match p.2 with
    | some e => !e.applyFails
    | none => true)

/-- A command resolved on an editor, as used by the dispatcher: its id and
whether `isSupported()` reports true. -/
structure Command where
  cmdId : String
  supported : Bool
deriving DecidableEq

/-- An editor handle as seen by the focused-command dispatcher: its focus
state and the commands it resolves (`getAction` yields the first entry
whose key matches, or null). -/
structure CmdHandle where
  hasFocus : Bool
  actions : List (String × Command)
deriving DecidableEq

/-- `editor.getAction(commandId)`: the command registered under this id,
or null (`none`) when the editor does not define it. -/
def getAction (ed : CmdHandle) (commandId : String) : Option Command :=
  (ed.actions.find? (fun p => p.1 == commandId)).map (fun p => p.2)

/-- Modelled from the spec: `getFocusedEditor` of
`src/utils/focused-editor` (not part of the provided sources) — the first
handle in registry order that reports focus, or `none`. -/
def getFocusedEditor (reg : List (String × CmdHandle)) :
    Option (String × CmdHandle) :=
  reg.find? (fun p => p.2.hasFocus)

/-- Observable events of one `executeCommand` call: `run key commandId`
records one synchronous invocation of the resolved command on the handle
registered under `key`. -/
inductive CEvent where
  | run : String → String → CEvent
deriving DecidableEq

/-- `Editors.executeCommand(commandId)` (editors.tsx lines 107–119). If no
editor reports focus, nothing happens. Otherwise the focused editor
resolves the command; the very next line evaluates the template literal
"Editors: Trying to run ...command.id..." BEFORE the null guard
`if (command && command.isSupported())`, so when `getAction` yields null
the property read `command.id` throws a TypeError that escapes the method
(modelled as `Except.error`). When a command is resolved it is run exactly
once if supported, with no result returned. -/
def executeCommand (reg : List (String × CmdHandle)) (commandId : String) :
    Except String (List CEvent) :=
  match getFocusedEditor reg with
  | none => Except.ok []
  | some focused =>
      match getAction focused.2 commandId with
      | none => Except.error "TypeError: cannot read id of null"
      | some command =>
          if command.supported then
            Except.ok [CEvent.run focused.1 commandId]
          else
            Except.ok []

/-- The lifecycle phase of one `loadMonaco()` call: not yet begun, parked
on `await loader()`, or finished holding its engine instance. -/
inductive TaskPhase where
  | idle : TaskPhase
  | inFlight : TaskPhase
  | finished : Nat → TaskPhase
deriving DecidableEq

/-- Process-wide loader state: the cache `window.ElectronFiddle.app.monaco`
(`none` until first assigned), the number of times the loader module has
been invoked, and the phase of each `loadMonaco` call (one per mounting
`Editors` component). -/
structure LoadState where
  appMonaco : Option Nat
  loaderCalls : Nat
  tasks : List TaskPhase
deriving DecidableEq

/-- A scheduling action on the single-threaded event loop: `start tid`
runs the synchronous prefix of call `tid` of `loadMonaco` (up to and
including starting `loader()` when the cache is empty), and
`resolve tid engine` runs its continuation after `await loader()` yields
`engine`. -/
inductive LoadAction where
  | start : Nat → LoadAction
  | resolve : Nat → Nat → LoadAction
deriving DecidableEq

/-- One event-loop turn of `Editors.loadMonaco` (editors.tsx lines
225–244). `const monaco = app.monaco || await loader()`: when the cache is
set, the call completes synchronously with the cached engine and the
loader is not invoked; when the cache is empty, the loader is invoked and
the call suspends. On resume, `if (!app.monaco) app.monaco = monaco`
assigns the cache only when it is still empty, and the call finishes with
the engine its own loader invocation produced. Actions on calls not in the
matching phase are no-ops. -/
def loadStep (s : LoadState) (a : LoadAction) : LoadState :=
  match a with
  | LoadAction.start tid =>
      match s.tasks.get? tid with
      | some TaskPhase.idle =>
          match s.appMonaco with
          | some m => { s with tasks := s.tasks.set tid (TaskPhase.finished m) }
          | none =>
              { s with loaderCalls := s.loaderCalls + 1,
                       tasks := s.tasks.set tid TaskPhase.inFlight }
      | _ => s
  | LoadAction.resolve tid engine =>
      match s.tasks.get? tid with
      | some TaskPhase.inFlight =>
          match s.appMonaco with
          | none =>
              { s with appMonaco := some engine,
                       tasks := s.tasks.set tid (TaskPhase.finished engine) }
          | some _ =>
              { s with tasks := s.tasks.set tid (TaskPhase.finished engine) }
      | _ => s

/-- Run a schedule of event-loop turns from an initial loader state. -/
def runSchedule (s : LoadState) (sched : List LoadAction) : LoadState :=
  sched.foldl loadStep s

/-- A loader state with an empty cache and `n` mounting components, none
of which has run yet. -/
def loadInit (n : Nat) : LoadState :=
  { appMonaco := none, loaderCalls := 0, tasks := List.replicate n TaskPhase.idle }

/-- The pane arrangement tree (spec §3): empty, a single pane, or a split
with an axis, a ratio (as a percentage) and two subtrees. -/
inductive Arrangement where
  | empty : Arrangement
  | leaf : String → Arrangement
  | split : Bool → Nat → Arrangement → Arrangement → Arrangement
deriving DecidableEq

/-- Modelled from the spec: the state of the layout-persistence debouncer
(`updateEditorLayout` of `src/utils/editor-layout`, not part of the
provided sources; spec §4.6): at most one pending job, holding the
arrangement it would write, plus the list of completed writes. -/
structure DebounceState where
  pending : Option Arrangement
  writes : List Arrangement
deriving DecidableEq

/-- An event seen by the debouncer: an arrangement change, the settle
delay elapsing, or component teardown. -/
inductive DebAction where
  | change : Arrangement → DebAction
  | elapse : DebAction
  | teardown : DebAction
deriving DecidableEq

/-- Modelled from the spec: one step of the layout-persistence debouncer
(spec §4.6). A change cancels any pending job and schedules a new one for
the new arrangement; when the settle delay elapses the pending job writes
its arrangement; teardown cancels without flushing. -/
def debStep (s : DebounceState) (a : DebAction) : DebounceState :=
  match a with
  | DebAction.change arr => { s with pending := some arr }
  | DebAction.elapse =>
      match s.pending with
      | some arr => { pending := none, writes := s.writes ++ [arr] }
      | none => s
  | DebAction.teardown => { s with pending := none }

/-- Run a sequence of debouncer events. -/
def debRun (s : DebounceState) (l : List DebAction) : DebounceState :=
  l.foldl debStep s

/-- The debouncer before any change: nothing pending, nothing written. -/
def debInit : DebounceState := { pending := none, writes := [] }

/-- The heap after a successful `toggle("wordWrap")` from `stdHeap`: the
fresh copy (object 2) carries the toggled value; objects 0 and 1 are
untouched. -/
def stdHeapWW : Heap :=
  [[("enabled", JsVal.vbool false)],
   [("minimap", JsVal.vref 0), ("wordWrap", JsVal.vstr "on")],
   [("minimap", JsVal.vref 0), ("wordWrap", JsVal.vstr "off")]]

/-- The state published by a successful `toggle("wordWrap")` from the
default options with an empty registry. -/
def wwToggledState : ToggleState :=
  { heap := stdHeapWW, currentRef := 2, editors := some [] }

/-- A registry with a single mounted handle whose `updateOptions`
throws. -/
def failingRegistry : List (String × Option EditorInst) :=
  [("main", some (EditorInst.mk true))]

/-- The state left behind by `toggle("minimap.enabled")` when the only
handle throws: the heap carries the (shared, mutated) objects, but the
published current reference is still 1. -/
def mainFailState : ToggleState :=
  { heap := stdHeapToggled, currentRef := 1, editors := some failingRegistry }

/-- A loader state whose cache already holds engine 7 and with one
not-yet-run mount. -/
def cachedLoadState : LoadState :=
  { appMonaco := some 7, loaderCalls := 1, tasks := [TaskPhase.idle] }

/-- A loader state whose cache holds engine 7 while another call is
parked on its own load. -/
def inFlightLoadState : LoadState :=
  { appMonaco := some 7, loaderCalls := 1, tasks := [TaskPhase.inFlight] }

/-! ## Helper lemmas -/

/-- Appending an object to the heap leaves every existing reference
unchanged. -/
theorem heapGet_append_lt : ∀ (h : Heap) (o : JsObj) (r : Nat),
    r < h.length → heapGet (h ++ [o]) r = heapGet h r
  | [], _, r, hr => absurd hr (Nat.not_lt_zero r)
  | _ :: _, _, 0, _ => rfl
  | _ :: t, o, r + 1, hr =>
      heapGet_append_lt t o r (Nat.lt_of_succ_lt_succ hr)

/-- Overwriting one heap object leaves every other reference unchanged. -/
theorem heapGet_set_ne : ∀ (h : Heap) (j r : Nat) (o : JsObj), r ≠ j →
    heapGet (heapSet h j o) r = heapGet h r
  | [], _, _, _, _ => rfl
  | _ :: _, 0, 0, _, hne => absurd rfl hne
  | _ :: _, 0, _ + 1, _, _ => rfl
  | _ :: _, _ + 1, 0, _, _ => rfl
  | _ :: t, j + 1, r + 1, o, hne =>
      heapGet_set_ne t j r o (fun hh => hne (congrArg Nat.succ hh))

/-- When no mounted handle throws, the apply loop completes and emits one
apply-options event per mounted handle, in registry order. -/
theorem applyAll_ok (r : Nat) :
    ∀ (eds : List (String × Option EditorInst)),
    edsAllHealthy eds = true →
    applyAll eds r = (applyEvents eds r, true) := by
  intro eds
  induction eds with
  | nil => intro _; rfl
  | cons hd rest ih =>
    intro hok
    obtain ⟨k, oe⟩ := hd
    cases oe with
    | none =>
      have hr : edsAllHealthy rest = true := by
        simpa [edsAllHealthy] using hok
      have := ih hr
      simp [applyAll, applyEvents, List.filterMap] at this ⊢
      exact this
    | some e =>
      have hparts : e.applyFails = false ∧ edsAllHealthy rest = true := by
        simpa [edsAllHealthy] using hok
      have := ih hparts.2
      simp [applyAll, applyEvents, List.filterMap, hparts.1] at this ⊢
      simp [this]

/-- When the first throwing handle sits after a block of healthy handles,
the apply loop emits the healthy handles' events plus the throwing
handle's own attempt, then aborts: entries after it get no event. -/
theorem applyAll_abort (r : Nat) (k : String) (e : EditorInst)
    (post : List (String × Option EditorInst)) (hf : e.applyFails = true) :
    ∀ (pre : List (String × Option EditorInst)),
    edsAllHealthy pre = true →
    applyAll (pre ++ (k, some e) :: post) r
      = (applyEvents pre r ++ [TEvent.applyOptions k r], false) := by
  intro pre
  induction pre with
  | nil => intro _; simp [applyAll, applyEvents, hf]
  | cons hd rest ih =>
    intro hok
    obtain ⟨k1, oe⟩ := hd
    cases oe with
    | none =>
      have hr : edsAllHealthy rest = true := by
        simpa [edsAllHealthy] using hok
      have := ih hr
      simp [applyAll, applyEvents, List.filterMap] at this ⊢
      exact this
    | some x =>
      have hparts : x.applyFails = false ∧ edsAllHealthy rest = true := by
        simpa [edsAllHealthy] using hok
      have := ih hparts.2
      simp [applyAll, applyEvents, List.filterMap, hparts.1] at this ⊢
      simp [this]

/-- Overwriting an existing index makes reading that index yield the new
value. -/
theorem get?_set_self {α : Type} : ∀ (l : List α) (i : Nat) (a b : α),
    l.get? i = some a → (l.set i b).get? i = some b := by
  intro l
  induction l with
  | nil => intro i a b h; simp [List.get?] at h
  | cons x t ih =>
    intro i a b h
    cases i with
    | zero => rfl
    | succ n => exact ih n a b h

/-- Evaluating `toggle("minimap.enabled")` from the default options for an
arbitrary registry: everything up to the apply loop is concrete, leaving
only the loop's outcome. -/
theorem toggle_std_minimap (eds : List (String × Option EditorInst)) :
    toggleEditorOption (mkStdState (some eds)) "minimap.enabled"
      = if (applyAll eds 2).2 then
          (true,
            { heap := stdHeapToggled, currentRef := 2, editors := some eds },
            (applyAll eds 2).1 ++ [TEvent.publish 2])
        else
          (false,
            { heap := stdHeapToggled, currentRef := 1, editors := some eds },
            (applyAll eds 2).1 ++ [TEvent.warnLog "minimap.enabled"]) := rfl

/-! ## Claim theorems -/

/-- Claim C1 (code bug): `execute(commandId)` is claimed to be a silent
no-op raising no error whenever no handle reports focus, or the focused
handle resolves no command, or the command is unsupported. The first and
third branches do behave that way, but when the focused editor resolves no
command (`getAction` yields null), the `console.log` template literal
dereferences `command.id` before the null guard and a TypeError escapes
`execute` — the code contradicts its own `if (command && ...)` guard. This
theorem evaluates the embedded code on the failing input (a focused
`renderer` handle defining no commands) and on the neighbouring benign
inputs. -/
theorem c1_execute_crash_on_unresolved_command :
    executeCommand [] "undo" = Except.ok []
    ∧ executeCommand [("main", CmdHandle.mk false [])] "undo" = Except.ok []
    ∧ executeCommand
        [("renderer", CmdHandle.mk true [("undo", Command.mk "undo" false)])]
        "undo" = Except.ok []
    ∧ executeCommand [("renderer", CmdHandle.mk true [])] "undo"
        = Except.error "TypeError: cannot read id of null" :=
  ⟨rfl, rfl, rfl, rfl⟩

/-- Claim C2 (counterexample): a successful `toggle("minimap.enabled")`
from the default options does NOT leave the original snapshot's nested
sub-objects unchanged: the spread `\x7b ...monacoOptions \x7d` is shallow, so the
`minimap` sub-object is shared, and `setAtPath` mutates it in place. The
toggle returns `true`, yet reading `minimap.enabled` through the OLD
snapshot (reference 1) now yields `true` where it yielded `false` before:
a holder of the previous snapshot observes the change. -/
theorem c2_counterexample :
    (toggleEditorOption (mkStdState (some [])) "minimap.enabled").1 = true
    ∧ readValue 9 stdHeap (JsVal.vref 1)
        = some (OptVal.obj
            [("minimap", OptVal.obj [("enabled", OptVal.b false)]),
             ("wordWrap", OptVal.s "on")])
    ∧ readValue 9
          (toggleEditorOption (mkStdState (some [])) "minimap.enabled").2.1.heap
          (JsVal.vref 1)
        = some (OptVal.obj
            [("minimap", OptVal.obj [("enabled", OptVal.b true)]),
             ("wordWrap", OptVal.s "on")])
    ∧ getAtPath stdHeap "minimap.enabled" 1 = Except.ok (JsVal.vbool false)
    ∧ getAtPath
          (toggleEditorOption (mkStdState (some [])) "minimap.enabled").2.1.heap
          "minimap.enabled" 1
        = Except.ok (JsVal.vbool true)
    ∧ JsVal.vbool false ≠ JsVal.vbool true :=
  ⟨rfl, rfl, rfl, rfl, rfl, by decide⟩

/-- Claim C3 (counterexample): with two mounted handles where the first
one's `updateOptions` throws, `toggle("minimap.enabled")` aborts the apply
loop — the whole loop sits inside one try/catch, so the second handle
never receives an apply-options call, contradicting the claim that a
handle-level failure does not prevent applying to the remaining
handles. The failure is caught and logged (`warnLog`) and `false` is
returned with the old snapshot still current (`currentRef` still 1). -/
theorem c3_counterexample :
    toggleEditorOption
        (mkStdState (some [("main", some (EditorInst.mk true)),
          ("renderer", some (EditorInst.mk false))]))
        "minimap.enabled"
      = (false,
         { heap := stdHeapToggled, currentRef := 1,
           editors := some [("main", some (EditorInst.mk true)),
             ("renderer", some (EditorInst.mk false))] },
         [TEvent.applyOptions "main" 2, TEvent.warnLog "minimap.enabled"])
    ∧ TEvent.applyOptions "renderer" 2
        ∉ [TEvent.applyOptions "main" 2, TEvent.warnLog "minimap.enabled"] :=
  ⟨rfl, by decide⟩

/-- Claim C5: with the two registered handles `main` and `renderer` and
the default options (`minimap.enabled = false`, `wordWrap = "on"`),
`toggle("minimap.enabled")` sends every registered handle an apply-options
call carrying the new snapshot (reference 2), whose structural value is
`\x7b minimap: \x7b enabled: true \x7d, wordWrap: "on" \x7d`; both apply events precede
the `publish` event, and the call returns `true`. -/
theorem c5_concrete_toggle_scenario :
    toggleEditorOption
        (mkStdState (some [("main", some (EditorInst.mk false)),
          ("renderer", some (EditorInst.mk false))]))
        "minimap.enabled"
      = (true,
         { heap := stdHeapToggled, currentRef := 2,
           editors := some [("main", some (EditorInst.mk false)),
             ("renderer", some (EditorInst.mk false))] },
         [TEvent.applyOptions "main" 2, TEvent.applyOptions "renderer" 2,
          TEvent.publish 2])
    ∧ readValue 9 stdHeapToggled (JsVal.vref 2)
        = some (OptVal.obj
            [("minimap", OptVal.obj [("enabled", OptVal.b true)]),
             ("wordWrap", OptVal.s "on")]) :=
  ⟨rfl, rfl⟩

/-- Claim C7 (counterexample): two components mount while the cache is
empty; both run the synchronous prefix of `loadMonaco` before the first
load resolves. Each sees `app.monaco` unset and invokes the loader, so the
loader runs twice (`loaderCalls = 2`, not at most once), and the second
call finishes with its own engine (101), not the shared in-flight result
of the first (100): in-flight calls do not share one load. -/
theorem c7_counterexample :
    runSchedule (loadInit 2)
        [LoadAction.start 0, LoadAction.start 1,
         LoadAction.resolve 0 100, LoadAction.resolve 1 101]
      = { appMonaco := some 100, loaderCalls := 2,
          tasks := [TaskPhase.finished 100, TaskPhase.finished 101] }
    ∧ ¬ (2 ≤ 1)
    ∧ TaskPhase.finished 101 ≠ TaskPhase.finished 100 :=
  ⟨rfl, by decide, by decide⟩

/-- Claim C8: two arrangement changes within the debounce settle delay
(no `elapse` between them) leave only the second change pending — the
first change's scheduled write is cancelled — and when the delay elapses
exactly one persistence write occurs, containing the second (latest)
arrangement; the intermediate arrangement is never written. -/
theorem c8_debounce_writes_latest_only (a1 a2 : Arrangement) :
    debRun debInit [DebAction.change a1] = { pending := some a1, writes := [] }
    ∧ debRun debInit [DebAction.change a1, DebAction.change a2]
        = { pending := some a2, writes := [] }
    ∧ debRun debInit [DebAction.change a1, DebAction.change a2, DebAction.elapse]
        = { pending := none, writes := [a2] } :=
  ⟨rfl, rfl, rfl⟩

/-- Claim C9: when the editors collection itself is absent
(`window.ElectronFiddle.editors` is falsy), `toggle(path)` returns `false`
immediately, for every path: the state (heap and published snapshot
reference) is untouched and no event — no snapshot computation, no
apply-options call, no publish — occurs. -/
theorem c9_absent_registry_noop (st : ToggleState) (path : String)
    (h : st.editors = none) :
    toggleEditorOption st path = (false, st, []) := by
  unfold toggleEditorOption
  rw [h]

/-- Witness for C9 at a concrete state and path. -/
theorem c9_witness :
    (mkStdState none).editors = none
    ∧ toggleEditorOption (mkStdState none) "minimap.enabled"
        = (false, mkStdState none, []) :=
  ⟨rfl, c9_absent_registry_noop (mkStdState none) "minimap.enabled" rfl⟩

/-- Claim C6: when some handle reports focus, the focused handle resolves
`commandId` to a command, and the command reports itself supported,
`execute(commandId)` invokes that command exactly once and synchronously:
the event trace is the single `run` event on the focused handle's key, so
no other handle sees an invocation, and no result is surfaced (the method
returns nothing beyond this effect). -/
theorem c6_focused_supported_runs_once (reg : List (String × CmdHandle))
    (commandId key : String) (ed : CmdHandle) (c : Command)
    (hfoc : getFocusedEditor reg = some (key, ed))
    (hact : getAction ed commandId = some c)
    (hsup : c.supported = true) :
    executeCommand reg commandId = Except.ok [CEvent.run key commandId] := by
  simp [executeCommand, hfoc, hact, hsup]

/-- Witness for C6: the spec scenario — `renderer` reports focus and
defines a supported `undo` command; `main` is registered first but
unfocused. -/
theorem c6_witness :
    getFocusedEditor
        [("main", CmdHandle.mk false []),
         ("renderer", CmdHandle.mk true [("undo", Command.mk "undo" true)])]
      = some ("renderer", CmdHandle.mk true [("undo", Command.mk "undo" true)])
    ∧ getAction (CmdHandle.mk true [("undo", Command.mk "undo" true)]) "undo"
        = some (Command.mk "undo" true)
    ∧ executeCommand
        [("main", CmdHandle.mk false []),
         ("renderer", CmdHandle.mk true [("undo", Command.mk "undo" true)])]
        "undo"
      = Except.ok [CEvent.run "renderer" "undo"] :=
  ⟨rfl, rfl,
    c6_focused_supported_runs_once _ "undo" "renderer"
      (CmdHandle.mk true [("undo", Command.mk "undo" true)])
      (Command.mk "undo" true) rfl rfl rfl⟩

/-- Claim C4: for every path that does not resolve to a togglable value in
the current snapshot (malformed path or non-togglable leaf), and with the
editors collection present, `toggle(path)` returns `false`, logs exactly
one warning, and leaves the published snapshot unchanged: the current
reference is untouched and every pre-existing heap object — hence the
whole reachable snapshot — is byte-for-byte identical. -/
theorem c4_unresolved_path_noop (st : ToggleState)
    (eds : List (String × Option EditorInst)) (path : String)
    (hreg : st.editors = some eds)
    (hfail : pathResolves st path = false) :
    toggleEditorOption st path
      = (false,
         { st with heap := st.heap ++ [heapGet st.heap st.currentRef] },
         [TEvent.warnLog path])
    ∧ ∀ r, r < st.heap.length →
        heapGet (st.heap ++ [heapGet st.heap st.currentRef]) r
          = heapGet st.heap r := by
  refine ⟨?_, fun r hr => heapGet_append_lt st.heap _ r hr⟩
  unfold toggleEditorOption
  rw [hreg]
  unfold pathResolves at hfail
  cases hG : getAtPath (st.heap ++ [heapGet st.heap st.currentRef]) path
      st.heap.length with
  | error e => simp [hG]
  | ok v =>
    rw [hG] at hfail
    cases hT : toggleMonaco v with
    | error e => simp [hG, hT]
    | ok w => simp [hT] at hfail

/-- Witness for C4 at the default options and the unresolvable path
"x.y" (its first segment resolves to `undefined`, so the second lookup
throws). -/
theorem c4_witness :
    (mkStdState (some [])).editors = some []
    ∧ pathResolves (mkStdState (some [])) "x.y" = false
    ∧ toggleEditorOption (mkStdState (some [])) "x.y"
        = (false,
           { heap := stdHeap ++ [heapGet stdHeap 1], currentRef := 1,
             editors := some [] },
           [TEvent.warnLog "x.y"])
    ∧ heapGet (stdHeap ++ [heapGet stdHeap 1]) 1 = heapGet stdHeap 1 :=
  ⟨rfl, by decide,
    (c4_unresolved_path_noop (mkStdState (some [])) [] "x.y" rfl (by decide)).1,
    (c4_unresolved_path_noop (mkStdState (some [])) [] "x.y" rfl
      (by decide)).2 1 (by decide)⟩

/-- Claim C10: during a toggle from the default options, registry entries
whose handle is null are skipped without error — with distinct pane keys,
no apply-options event carries a null entry's key — and their presence
does not prevent the toggle from applying to every mounted (non-throwing)
handle and returning `true`: the events are exactly one apply per mounted
handle, in registry order, followed by the publish. -/
theorem c10_null_handles_skipped (eds : List (String × Option EditorInst))
    (hok : edsAllHealthy eds = true)
    (hnd : (eds.map Prod.fst).Nodup) :
    toggleEditorOption (mkStdState (some eds)) "minimap.enabled"
      = (true,
         { heap := stdHeapToggled, currentRef := 2, editors := some eds },
         applyEvents eds 2 ++ [TEvent.publish 2])
    ∧ ∀ k, (k, (none : Option EditorInst)) ∈ eds →
        TEvent.applyOptions k 2 ∉ applyEvents eds 2 := by
  constructor
  · rw [toggle_std_minimap, applyAll_ok 2 eds hok]
    simp
  · intro k hk hmem
    unfold applyEvents at hmem
    obtain ⟨p, hp, hpe⟩ := List.mem_filterMap.mp hmem
    obtain ⟨k1, oe⟩ := p
    cases oe with
    | none => simp at hpe
    | some e =>
      have hk1 : k1 = k := by
        simpa using congrArg (fun ev =>
          match ev with
          | some (TEvent.applyOptions s _) => s
          | _ => "") hpe
      have heq := List.inj_on_of_nodup_map hnd hk hp
      rw [hk1] at heq
      simp at heq

/-- Witness for C10: a registry with the `html` pane present but
unmounted (null handle) between two mounted handles. -/
theorem c10_witness :
    toggleEditorOption
        (mkStdState (some [("main", some (EditorInst.mk false)), ("html", none),
          ("renderer", some (EditorInst.mk false))]))
        "minimap.enabled"
      = (true,
         { heap := stdHeapToggled, currentRef := 2,
           editors := some [("main", some (EditorInst.mk false)), ("html", none),
             ("renderer", some (EditorInst.mk false))] },
         [TEvent.applyOptions "main" 2, TEvent.applyOptions "renderer" 2,
          TEvent.publish 2])
    ∧ TEvent.applyOptions "html" 2
        ∉ applyEvents [("main", some (EditorInst.mk false)), ("html", none),
            ("renderer", some (EditorInst.mk false))] 2 := by
  have h := c10_null_handles_skipped
    [("main", some (EditorInst.mk false)), ("html", none),
     ("renderer", some (EditorInst.mk false))] (by decide) (by decide)
  exact ⟨h.1, h.2 "html" (by decide)⟩

/-- Claim C2 (amended): a successful `toggle(path)` publishes a NEW
top-level snapshot object (a fresh reference, distinct from the old
current one), but the copy is shallow: nested sub-objects are shared with
the original, so toggling a multi-segment path mutates a sub-object still
reachable from the old snapshot (see the counterexample). Only for a
single-segment (top-level) path is the assignment confined to the fresh
object, leaving the original snapshot — and every other pre-existing heap
object — unchanged. -/
theorem c2_amended_shallow_copy (st : ToggleState) (path seg : String)
    (st' : ToggleState) (evs : List TEvent)
    (hseg : splitPath path = [seg])
    (hwf : st.currentRef < st.heap.length)
    (hrun : toggleEditorOption st path = (true, st', evs)) :
    st'.currentRef = st.heap.length
    ∧ st.currentRef ≠ st'.currentRef
    ∧ ∀ r, r < st.heap.length → heapGet st'.heap r = heapGet st.heap r := by
  unfold toggleEditorOption at hrun
  cases hE : st.editors with
  | none => rw [hE] at hrun; simp at hrun
  | some eds =>
    rw [hE] at hrun
    simp only [] at hrun
    cases hG : getAtPath (st.heap ++ [heapGet st.heap st.currentRef]) path
        st.heap.length with
    | error e => rw [hG] at hrun; simp at hrun
    | ok v =>
      rw [hG] at hrun
      simp only [] at hrun
      cases hT : toggleMonaco v with
      | error e => rw [hT] at hrun; simp at hrun
      | ok w =>
        rw [hT] at hrun
        simp only [] at hrun
        have hset : setAtPath (st.heap ++ [heapGet st.heap st.currentRef])
            path st.heap.length w
            = Except.ok (heapSet (st.heap ++ [heapGet st.heap st.currentRef])
                st.heap.length
                (objSet (heapGet (st.heap ++ [heapGet st.heap st.currentRef])
                  st.heap.length) seg w)) := by
          unfold setAtPath
          rw [hseg]
          rfl
        rw [hset] at hrun
        simp only [] at hrun
        cases hA : (applyAll eds st.heap.length).2 with
        | false => rw [hA] at hrun; simp at hrun
        | true =>
          rw [hA] at hrun
          simp only [if_true] at hrun
          simp only [Prod.mk.injEq, true_and] at hrun
          obtain ⟨h1, -⟩ := hrun
          subst h1
          refine ⟨rfl, Nat.ne_of_lt hwf, fun r hr => ?_⟩
          rw [heapGet_set_ne _ _ _ _ (Nat.ne_of_lt hr)]
          exact heapGet_append_lt st.heap _ r hr

/-- Witness for C2 (amended) at the top-level path "wordWrap" from the
default options: the published snapshot is the fresh object 2 and the
pre-existing objects (here object 0) are untouched. -/
theorem c2_amended_witness :
    wwToggledState.currentRef = (mkStdState (some [])).heap.length
    ∧ (mkStdState (some [])).currentRef ≠ wwToggledState.currentRef
    ∧ heapGet wwToggledState.heap 0 = heapGet (mkStdState (some [])).heap 0 := by
  have h := c2_amended_shallow_copy (mkStdState (some [])) "wordWrap"
    "wordWrap" wwToggledState [TEvent.publish 2] rfl (by decide) rfl
  exact ⟨h.1, h.2.1, h.2.2 0 (by decide)⟩

/-- Claim C3 (amended): a failure thrown while applying the new snapshot
to one editor handle is caught by the surrounding try/catch and logged,
but — contrary to the original claim — it DOES abort applying to the
remaining handles (the whole loop sits in the one try block), and the
toggle returns `false`. The second half of the claim holds as stated:
whenever `toggle` returns `false`, the previously current snapshot
reference is still the published current one (and the registry is
untouched). -/
theorem c3_amended_catch_abort_keep_current :
    (∀ (st : ToggleState) (path : String) (st' : ToggleState)
        (evs : List TEvent),
        toggleEditorOption st path = (false, st', evs) →
        st'.currentRef = st.currentRef ∧ st'.editors = st.editors)
    ∧ (∀ (r : Nat) (k : String) (e : EditorInst)
        (post pre : List (String × Option EditorInst)),
        e.applyFails = true → edsAllHealthy pre = true →
        applyAll (pre ++ (k, some e) :: post) r
          = (applyEvents pre r ++ [TEvent.applyOptions k r], false)) := by
  constructor
  · intro st path st' evs h
    unfold toggleEditorOption at h
    cases hE : st.editors with
    | none =>
      rw [hE] at h
      simp only [Prod.mk.injEq, true_and] at h
      obtain ⟨h1, -⟩ := h
      subst h1
      exact ⟨rfl, hE⟩
    | some eds =>
      rw [hE] at h
      simp only [] at h
      cases hG : getAtPath (st.heap ++ [heapGet st.heap st.currentRef]) path
          st.heap.length with
      | error e =>
        rw [hG] at h
        simp only [Prod.mk.injEq, true_and] at h
        obtain ⟨h1, -⟩ := h
        subst h1
        exact ⟨rfl, rfl⟩
      | ok v =>
        rw [hG] at h
        simp only [] at h
        cases hT : toggleMonaco v with
        | error e =>
          rw [hT] at h
          simp only [Prod.mk.injEq, true_and] at h
          obtain ⟨h1, -⟩ := h
          subst h1
          exact ⟨rfl, rfl⟩
        | ok w =>
          rw [hT] at h
          simp only [] at h
          cases hS : setAtPath (st.heap ++ [heapGet st.heap st.currentRef])
              path st.heap.length w with
          | error e =>
            rw [hS] at h
            simp only [Prod.mk.injEq, true_and] at h
            obtain ⟨h1, -⟩ := h
            subst h1
            exact ⟨rfl, rfl⟩
          | ok h2 =>
            rw [hS] at h
            simp only [] at h
            cases hA : (applyAll eds st.heap.length).2 with
            | true => rw [hA] at h; simp at h
            | false =>
              rw [hA] at h
              simp only [Bool.false_eq_true, if_false, Prod.mk.injEq,
                true_and] at h
              obtain ⟨h1, -⟩ := h
              subst h1
              exact ⟨rfl, rfl⟩
  · exact fun r k e post pre hf hok => applyAll_abort r k e post hf pre hok

/-- Witness for C3 (amended): a one-handle registry whose handle throws —
the toggle returns `false` with `currentRef` still 1 — and a concrete
abort of the apply loop with a healthy handle after the throwing one. -/
theorem c3_amended_witness :
    mainFailState.currentRef = (mkStdState (some failingRegistry)).currentRef
    ∧ mainFailState.editors = (mkStdState (some failingRegistry)).editors
    ∧ applyAll ([] ++ ("main", some (EditorInst.mk true))
          :: [("renderer", some (EditorInst.mk false))]) 2
        = (applyEvents [] 2 ++ [TEvent.applyOptions "main" 2], false) := by
  have h1 := c3_amended_catch_abort_keep_current.1
    (mkStdState (some failingRegistry)) "minimap.enabled" mainFailState
    [TEvent.applyOptions "main" 2, TEvent.warnLog "minimap.enabled"] rfl
  have h2 := c3_amended_catch_abort_keep_current.2 2 "main"
    (EditorInst.mk true) [("renderer", some (EditorInst.mk false))] [] rfl rfl
  exact ⟨h1.1, h1.2, h2⟩

/-- Claim C7 (amended): after the engine has resolved and the cache
`app.monaco` is set, every later `loadMonaco` call completes without
re-invoking the loader, reusing the cached instance, and a resolving load
never overwrites an already-set cache; but — contrary to the original
claim — a call whose synchronous prefix runs while the initial load is
still in flight (cache still empty) invokes the loader AGAIN: the
in-flight result is not shared, so the loader can run more than once per
process (see the counterexample). -/
theorem c7_amended_loader_cache :
    (∀ (s : LoadState) (tid m : Nat), s.appMonaco = some m →
        (loadStep s (LoadAction.start tid)).loaderCalls = s.loaderCalls
        ∧ (loadStep s (LoadAction.start tid)).appMonaco = some m
        ∧ (s.tasks.get? tid = some TaskPhase.idle →
            (loadStep s (LoadAction.start tid)).tasks.get? tid
              = some (TaskPhase.finished m)))
    ∧ (∀ (s : LoadState) (tid engine m : Nat), s.appMonaco = some m →
        (loadStep s (LoadAction.resolve tid engine)).appMonaco = some m)
    ∧ (∀ (s : LoadState) (tid : Nat), s.appMonaco = none →
        s.tasks.get? tid = some TaskPhase.idle →
        (loadStep s (LoadAction.start tid)).loaderCalls
          = s.loaderCalls + 1) := by
  refine ⟨?_, ?_, ?_⟩
  · intro s tid m hm
    simp only [loadStep]
    cases hT : s.tasks.get? tid with
    | none =>
      exact ⟨rfl, hm, fun hh => Option.noConfusion hh⟩
    | some ph =>
      cases ph with
      | idle =>
        rw [hm]
        exact ⟨rfl, rfl, fun _ =>
          get?_set_self s.tasks tid TaskPhase.idle (TaskPhase.finished m) hT⟩
      | inFlight =>
        exact ⟨rfl, hm, fun hh => by simp at hh⟩
      | finished n =>
        exact ⟨rfl, hm, fun hh => by simp at hh⟩
  · intro s tid engine m hm
    simp only [loadStep]
    cases hT : s.tasks.get? tid with
    | none => exact hm
    | some ph =>
      cases ph with
      | idle => exact hm
      | inFlight => rw [hm]
      | finished n => exact hm
  · intro s tid hnone hidle
    simp only [loadStep]
    rw [hidle, hnone]

/-- Witness for C7 (amended) at concrete loader states: a cached engine is
reused without a loader call; a resolve cannot overwrite the cache; an
empty-cache start increments the loader-call count. -/
theorem c7_amended_witness :
    (loadStep cachedLoadState (LoadAction.start 0)).loaderCalls
      = cachedLoadState.loaderCalls
    ∧ (loadStep cachedLoadState (LoadAction.start 0)).tasks.get? 0
        = some (TaskPhase.finished 7)
    ∧ (loadStep inFlightLoadState (LoadAction.resolve 0 9)).appMonaco
        = some 7
    ∧ (loadStep (loadInit 1) (LoadAction.start 0)).loaderCalls
        = (loadInit 1).loaderCalls + 1 := by
  have h := c7_amended_loader_cache
  exact ⟨(h.1 cachedLoadState 0 7 rfl).1, (h.1 cachedLoadState 0 7 rfl).2.2 rfl,
    h.2.1 inFlightLoadState 0 9 7 rfl, h.2.2 (loadInit 1) 0 rfl rfl⟩

end Fiddle
